import Mathlib

/-!
Verification of the OMR (optical mark recognition) scanning pipeline of the
`thesis` repository.

The development shallowly embeds the Python code of
`src/omr_project/core/scanning/scanner_model.py`,
`src/omr_project/core/scanning/worker_threads.py`,
`src/omr_project/ui/scanner_widget.py` and the legacy monolith `src/omr.py`
(bubble analysis, answer resolution, anchor detection, coordinate mapping,
layout export).  Machine floats are embedded as rationals; the one genuinely
irrational quantity (the standard deviation used for the confidence score) is
embedded as a real number via `Real.sqrt`.  Images are embedded after the
grayscale conversion step: a `GrayImage` is a height/width pair together with
a pixel function, matching the 2-d `numpy` array `gray` that every analysed
image is reduced to before any pixel is sampled.
-/

namespace ThesisOMR

/-- Grayscale image: the 2-d array `gray` of `analyze_bubble`, indexed as
`gray[y, x]` with `0 ≤ y < height`, `0 ≤ x < width`. -/
structure GrayImage where
  height : ℕ
  width : ℕ
  pixel : ℕ → ℕ → ℚ

/-- Result of analysing a single answer bubble
(`BubbleAnalysisResult` in `scanner_model.py` and `omr.py`). -/
structure BubbleAnalysisResult where
  darkness_score : ℚ
  is_filled : Bool
  confidence : ℝ

/-- The detector configuration (`BubbleDetector.__init__` reads
`AppConfig.ANALYSIS_RADIUS` and `AppConfig.FILLED_THRESHOLD`). -/
structure BubbleDetector where
  analysis_radius : ℕ
  filled_threshold : ℚ

/-- The detector built from `AppConfig`: `ANALYSIS_RADIUS = 18`,
`FILLED_THRESHOLD = 0.3`. -/
def defaultDetector : BubbleDetector := ⟨18, 3/10⟩

/-- Python `int()` applied to a float: truncation toward zero. -/
def pyInt (q : ℚ) : ℤ := if q < 0 then ⌈q⌉ else ⌊q⌋

/-- Arithmetic mean of a list of rationals (`np.mean`). -/
def listMean (l : List ℚ) : ℚ := l.sum / (l.length : ℚ)

/-- Population variance of a list of rationals (square of `np.std`). -/
def listVariance (l : List ℚ) : ℚ :=
  ((l.map fun x => (x - listMean l) ^ 2).sum) / (l.length : ℚ)

/-- Population standard deviation (`np.std`): the square root of the
variance, an irrational real in general. -/
noncomputable def listStd (l : List ℚ) : ℝ := Real.sqrt (listVariance l)

/-- The loop range `range(-r, r + 1)` of `analyze_bubble`. -/
def offsetRange (r : ℕ) : List ℤ :=
  (List.range (2 * r + 1)).map fun k : ℕ => (k : ℤ) - (r : ℤ)

/-- The offsets `(dy, dx)` kept by the circular-mask test
`dx*dx + dy*dy <= r*r`, in the iteration order of the two nested loops
(`dy` outer, `dx` inner). -/
def circleOffsets (r : ℕ) : List (ℤ × ℤ) :=
  (offsetRange r).flatMap fun dy =>
    (offsetRange r).filterMap fun dx =>
      if dx * dx + dy * dy ≤ (r : ℤ) * (r : ℤ) then some (dy, dx) else none

/-- The list `pixel_values` sampled by `analyze_bubble`:
`gray[center_y + dy, center_x + dx]` over the circular mask. -/
def samplePixels (r : ℕ) (img : GrayImage) (cx cy : ℤ) : List ℚ :=
  (circleOffsets r).map fun od => img.pixel (cy + od.1).toNat (cx + od.2).toNat

/-- The bounds check of `analyze_bubble`: true when the circular sampling
window would read outside the image. -/
def outOfBounds (r : ℕ) (img : GrayImage) (cx cy : ℤ) : Bool :=
  decide (cx - (r : ℤ) < 0) || decide ((img.width : ℤ) ≤ cx + (r : ℤ)) ||
  decide (cy - (r : ℤ) < 0) || decide ((img.height : ℤ) ≤ cy + (r : ℤ))

/-- `BubbleDetector.analyze_bubble` (identical in `scanner_model.py` and
`omr.py`): reject out-of-window centers with the zero result, otherwise
sample the circular mask and compute darkness, fill status and confidence.
The `try/except` wrapper of the source maps any analysis failure to the same
zero result; in this total embedding every operation is defined, so no
exceptional path remains. -/
noncomputable def BubbleDetector.analyze_bubble (d : BubbleDetector) (img : GrayImage)
    (cx cy : ℤ) : BubbleAnalysisResult :=
  if outOfBounds d.analysis_radius img cx cy then ⟨0, false, 0⟩
  else
    let pv := samplePixels d.analysis_radius img cx cy
    if pv = [] then ⟨0, false, 0⟩
    else
      let mean := listMean pv
      let darkness := (255 - mean) / 255
      let confidence : ℝ := max 0 (1 - listStd pv / 100)
      ⟨darkness, decide (d.filled_threshold ≤ darkness), min 1 confidence⟩

/-- A 1x1 all-black test image. -/
def blackPixelImage : GrayImage := ⟨1, 1, fun _ _ => 0⟩

/-! ### Answer resolution (`analyze_all_bubbles`) -/

/-- Python's `max(first :: rest, key := darkness)`: scan left to right and
replace the current best only on a strictly larger key, so the first element
attaining the maximum wins. -/
def pyMaxFold : (String × ℚ) → List (String × ℚ) → String × ℚ
  | x, [] => x
  | x, c :: t => pyMaxFold (if x.2 < c.2 then c else x) t

/-- The answer-selection step at the end of the per-question loop of
`analyze_all_bubbles`: one qualifying option is the answer, several qualify
via `max(filled_options, key є darkness)`, none means blank. -/
def selectAnswer (fo : List (String × ℚ)) : Option String :=
  match fo with
  | [] => none
  | [x] => some x.1
  | x :: y :: t => some (pyMaxFold x (y :: t)).1

open Classical in
/-- The `filled_options` list built by the per-question loop of
`analyze_all_bubbles`: the options whose analysis has `is_filled` and
`confidence >= 0.8`, paired with their darkness score, in option order. -/
noncomputable def qualifyingOptions (d : BubbleDetector) (img : GrayImage)
    (opts : List (String × ℚ × ℚ)) : List (String × ℚ) :=
  opts.filterMap fun ov =>
    let a := d.analyze_bubble img (pyInt ov.2.1) (pyInt ov.2.2)
    if a.is_filled = true ∧ (4/5 : ℝ) ≤ a.confidence then
      some (ov.1, a.darkness_score)
    else none

/-- `BubbleDetector.analyze_all_bubbles` (identical in `scanner_model.py`
and `omr.py`): per question, the detailed analysis of every option bubble and
the resolved answer.  Dictionaries are embedded as association lists in
insertion order. -/
noncomputable def BubbleDetector.analyze_all_bubbles (d : BubbleDetector) (img : GrayImage)
    (positions : List (ℕ × List (String × ℚ × ℚ))) :
    List (ℕ × List (String × BubbleAnalysisResult)) × List (ℕ × Option String) :=
  (positions.map fun p =>
     (p.1, p.2.map fun ov => (ov.1, d.analyze_bubble img (pyInt ov.2.1) (pyInt ov.2.2))),
   positions.map fun p => (p.1, selectAnswer (qualifyingOptions d img p.2)))

/-! ### Anchor detection

Two implementations exist: the modular `WorkerThread._detect_anchors_static`
of `worker_threads.py` and the legacy `WorkerThread._detect_anchors` of
`omr.py`.  Both start from the bounding rectangles of the thresholded
contours (produced by OpenCV, outside the scope of this embedding), filter
them to square candidates and match candidates to the four expected corner
positions.  `AppConfig`: `ANCHOR_MARGIN = 75`, `ANCHOR_SIZE = 31`,
`ANCHOR_CONTOUR_MIN/MAX = 20/50`, `ANCHOR_ASPECT_MIN/MAX = 0.7/1.3`; the
legacy code hardcodes the same numbers.  The legacy detector computes
`np.sqrt` distances and compares them to `100` and to the running best;
since the square root is strictly monotone on nonnegative reals, the
embedding works with squared distances and the bound `10000`. -/

/-- A bounding rectangle `(x, y, w, h)` as returned by `cv2.boundingRect`. -/
structure Rect where
  x : ℤ
  y : ℤ
  w : ℤ
  h : ℤ
deriving DecidableEq

/-- The structured result dictionary of both anchor detectors. -/
structure AnchorResult where
  success : Bool
  message : String
  anchors : List (String × Rect)
deriving DecidableEq

/-- The square-candidate filter: width and height between 20 and 50 pixels,
aspect ratio `w / h` between 0.7 and 1.3 (`cv2.boundingRect` sides are
positive, so the rational division never divides by zero on real inputs). -/
def squareCandidates (rects : List Rect) : List Rect :=
  rects.filter fun r =>
    decide (20 ≤ r.w ∧ r.w ≤ 50 ∧ 20 ≤ r.h ∧ r.h ≤ 50 ∧
      (7:ℚ)/10 ≤ (r.w : ℚ) / (r.h : ℚ) ∧ (r.w : ℚ) / (r.h : ℚ) ≤ 13/10)

/-- `AppConfig.ANCHOR_MARGIN`. -/
def anchorMargin : ℤ := 75

/-- `AppConfig.ANCHOR_SIZE`. -/
def anchorSize : ℤ := 31

/-- The `expected` dictionary of anchor corner positions, in insertion
order. -/
def expectedAnchors (w h : ℤ) : List (String × ℤ × ℤ) :=
  [("top_left", (anchorMargin, anchorMargin)),
   ("top_right", (w - anchorMargin - anchorSize, anchorMargin)),
   ("bottom_left", (anchorMargin, h - anchorMargin - anchorSize)),
   ("bottom_right", (w - anchorMargin - anchorSize, h - anchorMargin - anchorSize))]

/-- Squared distance between a candidate's bounding-box center and the
expected anchor center `(exp + size/2)`, as computed by the modular
detector. -/
def centerDist2 (ex ey : ℤ) (r : Rect) : ℚ :=
  ((r.x : ℚ) + (r.w : ℚ) / 2 - ((ex : ℚ) + (anchorSize : ℚ) / 2)) ^ 2 +
  ((r.y : ℚ) + (r.h : ℚ) / 2 - ((ey : ℚ) + (anchorSize : ℚ) / 2)) ^ 2

/-- Squared distance between a candidate's top-left corner and the expected
top-left position, as used (under `np.sqrt`) by the legacy detector. -/
def cornerDist2 (ex ey : ℤ) (r : Rect) : ℤ :=
  (r.x - ex) ^ 2 + (r.y - ey) ^ 2

/-- The candidate loop of the modular detector: keep the running best,
replacing it exactly on a strictly smaller center distance (initial best
distance infinite). -/
def pickNearestCenterAux (ex ey : ℤ) (best : Option Rect) : List Rect → Option Rect
  | [] => best
  | c :: t =>
    match best with
    | none => pickNearestCenterAux ex ey (some c) t
    | some b =>
      if centerDist2 ex ey c < centerDist2 ex ey b then
        pickNearestCenterAux ex ey (some c) t
      else
        pickNearestCenterAux ex ey (some b) t

/-- Nearest-candidate choice of the modular detector. -/
def pickNearestCenter (ex ey : ℤ) (cands : List Rect) : Option Rect :=
  pickNearestCenterAux ex ey none cands

/-- The candidate loop of the legacy detector: a candidate becomes the
running best exactly when its distance is below 100 pixels (squared: 10000)
and below the running best distance. -/
def pickNearestCornerAux (ex ey : ℤ) (best : Option (Rect × ℤ)) :
    List Rect → Option (Rect × ℤ)
  | [] => best
  | c :: t =>
    match best with
    | none =>
      if cornerDist2 ex ey c < 10000 then
        pickNearestCornerAux ex ey (some (c, cornerDist2 ex ey c)) t
      else
        pickNearestCornerAux ex ey none t
    | some (b, bd) =>
      if cornerDist2 ex ey c < 10000 ∧ cornerDist2 ex ey c < bd then
        pickNearestCornerAux ex ey (some (c, cornerDist2 ex ey c)) t
      else
        pickNearestCornerAux ex ey (some (b, bd)) t

/-- Nearest-candidate choice of the legacy detector. -/
def pickNearestCorner (ex ey : ℤ) (cands : List Rect) : Option Rect :=
  (pickNearestCornerAux ex ey none cands).map Prod.fst

/-- The anchors dictionary built by the matching loop of the modular
detector: an entry per expected corner whose `best_candidate` is set
(`if best_candidate:` is true for every tuple, so an entry is produced
whenever the candidate list is nonempty). -/
def staticAnchors (w h : ℤ) (rects : List Rect) : List (String × Rect) :=
  (expectedAnchors w h).filterMap fun ne =>
    (pickNearestCenter ne.2.1 ne.2.2 (squareCandidates rects)).map fun r => (ne.1, r)

/-- `WorkerThread._detect_anchors_static` (`worker_threads.py`), from the
candidate rectangles on: assign to every expected corner the candidate with
minimal center distance, then succeed only when all four anchors are
present, with a fixed failure message. -/
def detectAnchorsStatic (w h : ℤ) (rects : List Rect) : AnchorResult :=
  if (staticAnchors w h rects).length < 4 then
    ⟨false, "Failed to detect all anchors", staticAnchors w h rects⟩
  else
    ⟨true, "Anchors detected", staticAnchors w h rects⟩

/-- The anchors dictionary built by the matching loop of the legacy
detector: an entry per expected corner with a candidate within 100 pixels. -/
def legacyAnchors (w h : ℤ) (rects : List Rect) : List (String × Rect) :=
  (expectedAnchors w h).filterMap fun ne =>
    (pickNearestCorner ne.2.1 ne.2.2 (squareCandidates rects)).map fun r => (ne.1, r)

/-- `WorkerThread._detect_anchors` (`omr.py`), from the candidate rectangles
on: assign to every expected corner the nearest candidate within 100 pixels
of the expected top-left corner, succeed when at least three anchors are
present, and always report the detected count in the message. -/
def detectAnchorsLegacy (w h : ℤ) (rects : List Rect) : AnchorResult :=
  ⟨decide (3 ≤ (legacyAnchors w h rects).length),
   "Detected " ++ toString (legacyAnchors w h rects).length ++ "/4 anchors",
   legacyAnchors w h rects⟩

/-- A message reports a count when the count's decimal form occurs in it. -/
def reportsCount (msg : String) (n : ℕ) : Prop :=
  (toString n).toList <:+: msg.toList

instance (msg : String) (n : ℕ) : Decidable (reportsCount msg n) :=
  inferInstanceAs (Decidable ((toString n).toList <:+: msg.toList))

/-! ### Coordinate mapping and layout export

`_transform_coordinates` exists in two variants: the modular one in
`scanner_widget.py` iterates every option of every question of the loaded
`bubble_coordinates`; the legacy one in `omr.py` iterates the fixed option
list `['A', 'B', 'C', 'D']` and looks each letter up in the question's
options.  Both guard on `if not self.anchors or not self.omr_data: return`,
leaving the previous `bubble_positions` untouched in that case.  The layout
export side lives in `omr.py` (`_calculate_alignment_points`,
`_calculate_bubble_coordinates`): US-letter geometry (612 x 792 points) at
150 dpi with `int()` truncation of the positive pixel values. -/

/-- The `relative_to_anchor` sub-dictionary of a bubble descriptor. -/
structure RelAnchor where
  anchor : String
  x : ℤ
  y : ℤ
deriving DecidableEq

/-- A bubble descriptor of the exported `bubble_coordinates` document. -/
structure BubbleCoord where
  x : ℤ
  y : ℤ
  radius : ℤ
  relative_to_anchor : Option RelAnchor
deriving DecidableEq

/-- Mapping of one descriptor against the detected anchors: absolute
position `anchor + relative offset` when the referenced anchor is present,
nothing otherwise. -/
def mapBubble (anchors : List (String × ℤ × ℤ)) (od : BubbleCoord) :
    Option (ℤ × ℤ) :=
  od.relative_to_anchor.bind fun rel =>
    (anchors.lookup rel.anchor).map fun a => (a.1 + rel.x, a.2 + rel.y)

/-- The modular `_transform_coordinates` loop (`scanner_widget.py`), past
the anchors/omr-data guard: every question key is created, and an option
position is emitted exactly when `mapBubble` produces one. -/
def transformCoordinates (anchors : List (String × ℤ × ℤ))
    (bubble_coords : List (ℕ × List (String × BubbleCoord))) :
    List (ℕ × List (String × ℤ × ℤ)) :=
  bubble_coords.map fun qd =>
    (qd.1, qd.2.filterMap fun od => (mapBubble anchors od.2).map fun p => (od.1, p))

/-- The fixed option list of the legacy `_transform_coordinates`. -/
def optionLetters : List String := ["A", "B", "C", "D"]

/-- The legacy `_transform_coordinates` loop (`omr.py`), past the guard:
iterate `['A', 'B', 'C', 'D']`, keep a letter when the question has it and
its referenced anchor is present. -/
def transformCoordinatesLegacy (anchors : List (String × ℤ × ℤ))
    (bubble_coords : List (ℕ × List (String × BubbleCoord))) :
    List (ℕ × List (String × ℤ × ℤ)) :=
  bubble_coords.map fun qd =>
    (qd.1, optionLetters.filterMap fun o =>
      ((qd.2.lookup o).bind (mapBubble anchors)).map fun p => (o, p))

/-- The full modular `_transform_coordinates` method including its guard:
with no anchors or no loaded document the previous positions are kept. -/
def transformCoordinatesUpdate (anchors : List (String × ℤ × ℤ))
    (omr_data : Option (List (ℕ × List (String × BubbleCoord))))
    (prev : List (ℕ × List (String × ℤ × ℤ))) :
    List (ℕ × List (String × ℤ × ℤ)) :=
  match omr_data with
  | none => prev
  | some bcs => if anchors = [] then prev else transformCoordinates anchors bcs

/-- The `greek_letters` list of `get_option_letter`: the Greek capitals
Α, Β, Γ, Δ (U+0391 to U+0394). -/
def greekLetters : List String := ["Α", "Β", "Γ", "Δ"]

/-- `chr(65 + index)`: the default option letter. -/
def latinOptionLetter (j : ℕ) : String := String.mk [Char.ofNat (65 + j)]

/-- `get_option_letter` (`omr.py`), parameterised by the translator's
current language: in Greek (`'el'`) the option letter is
`greek_letters[index] if index < len(greek_letters) else chr(65 + index)` —
which is exactly `List.getD` — and in every other language
`chr(65 + index)`. -/
def getOptionLetter (lang : String) (j : ℕ) : String :=
  if lang = "el" then greekLetters.getD j (latinOptionLetter j)
  else latinOptionLetter j

/-- The dictionary built by `_calculate_alignment_points`. -/
structure AlignmentPoints where
  top_left : ℤ × ℤ
  top_right : ℤ × ℤ
  bottom_left : ℤ × ℤ
  bottom_right : ℤ × ℤ
  size : ℤ
  page_width : ℤ
  page_height : ℤ

/-- `_calculate_alignment_points` (`omr.py`): US-letter page (612 x 792
points) rendered at 150 dpi, 15-point squares, half-inch margin; `int()` on
these positive values is the floor. -/
def calcAlignmentPoints : AlignmentPoints :=
  let dpi : ℚ := 150
  let pageW : ℤ := ⌊(612 / 72 : ℚ) * dpi⌋
  let pageH : ℤ := ⌊(792 / 72 : ℚ) * dpi⌋
  let sq : ℤ := ⌊(15 / 72 : ℚ) * dpi⌋
  let m : ℤ := ⌊(1 / 2 : ℚ) * dpi⌋
  { top_left := (m, m)
    top_right := (pageW - m - sq, m)
    bottom_left := (m, pageH - m - sq)
    bottom_right := (pageW - m - sq, pageH - m - sq)
    size := sq
    page_width := pageW
    page_height := pageH }

/-- Anchors placed exactly at the alignment points (the synthetically
perfect detection of the round-trip property). -/
def perfectAnchors : List (String × ℤ × ℤ) :=
  [("top_left", calcAlignmentPoints.top_left),
   ("top_right", calcAlignmentPoints.top_right),
   ("bottom_left", calcAlignmentPoints.bottom_left),
   ("bottom_right", calcAlignmentPoints.bottom_right)]

/-- `_calculate_bubble_coordinates` (`omr.py`): per question `i` and option
`j < MAX_OPTIONS_COUNT = 4`, relative offset `(120 + j*120, 380 + i*90)`
from the top-left alignment point, absolute position anchor + offset,
bubble radius `int((10 / 72) * 150) = 20`, option key
`get_option_letter(j)` in the active language. -/
def calcBubbleCoordinates (lang : String) (numQuestions : ℕ) :
    List (ℕ × List (String × BubbleCoord)) :=
  (List.range numQuestions).map fun i =>
    (i + 1, (List.range 4).map fun j =>
      (getOptionLetter lang j,
        { x := calcAlignmentPoints.top_left.1 + (120 + (j : ℤ) * 120)
          y := calcAlignmentPoints.top_left.2 + (380 + (i : ℤ) * 90)
          radius := ⌊((10 : ℚ) / 72) * 150⌋
          relative_to_anchor :=
            some ⟨"top_left", 120 + (j : ℤ) * 120, 380 + (i : ℤ) * 90⟩ }))

/-- On the 1x1 all-black image, a radius-0 detector samples the single pixel
and returns darkness 1 and confidence 1. -/
theorem analyze_bubble_blackPixel (t : ℚ) :
    (BubbleDetector.mk 0 t).analyze_bubble blackPixelImage 0 0 =
      ⟨1, decide (t ≤ 1), 1⟩ := by
  have hpv : samplePixels 0 blackPixelImage 0 0 = [0] := rfl
  have hob : outOfBounds 0 blackPixelImage 0 0 = false := rfl
  rw [BubbleDetector.analyze_bubble, hob]
  simp only [Bool.false_eq_true, if_false, hpv]
  have hmean : listMean [0] = 0 := by norm_num [listMean]
  have hvar : listVariance [0] = 0 := by norm_num [listVariance, hmean]
  have hstd : listStd [0] = 0 := by rw [listStd, hvar]; simp
  norm_num [hmean, hstd]

/-- C3: `analyze_bubble` is total, and whenever the circular sampling window
of radius `analysis_radius` would read a pixel outside the image bounds it
returns exactly `BubbleAnalysisResult(0.0, False, 0.0)`, for every pixel
content of the image — so no out-of-bounds pixel is ever read, and no
clamping takes place.  The `try/except` fallback to the same zero result is
vacuous in this total embedding. -/
theorem analyze_bubble_out_of_bounds (d : BubbleDetector) (h w : ℕ)
    (p : ℕ → ℕ → ℚ) (cx cy : ℤ)
    (hout : outOfBounds d.analysis_radius ⟨h, w, p⟩ cx cy = true) :
    d.analyze_bubble ⟨h, w, p⟩ cx cy = ⟨0, false, 0⟩ := by
  rw [BubbleDetector.analyze_bubble, hout]
  simp

/-- Witness for C3: the default detector at center (0, 0) of a 10x10 image is
out of bounds and yields the zero result, whatever the pixels are. -/
theorem analyze_bubble_out_of_bounds_witness :
    outOfBounds defaultDetector.analysis_radius ⟨10, 10, fun _ _ => 7⟩ 0 0 = true ∧
      defaultDetector.analyze_bubble ⟨10, 10, fun _ _ => 7⟩ 0 0 = ⟨0, false, 0⟩ :=
  ⟨by decide, analyze_bubble_out_of_bounds defaultDetector 10 10 (fun _ _ => 7) 0 0 (by decide)⟩


/-! ### Association-list helper lemmas -/

/-- Looking a key up in a list with distinct keys finds its value. -/
theorem lookup_eq_of_mem {α β : Type} [BEq α] [LawfulBEq α]
    (l : List (α × β)) (hnd : (l.map Prod.fst).Nodup) (k : α) (v : β)
    (hm : (k, v) ∈ l) : l.lookup k = some v := by
  induction l with
  | nil => cases hm
  | cons a t ih =>
    simp only [List.map_cons, List.nodup_cons] at hnd
    rcases List.mem_cons.1 hm with hm | hm
    · subst hm
      simp [List.lookup]
    · have hk : k ≠ a.1 := by
        intro h
        exact hnd.1 (h ▸ (List.mem_map.2 ⟨(k, v), hm, rfl⟩))
      have hb : (k == a.1) = false := beq_false_of_ne hk
      simp only [List.lookup, hb]
      exact ih hnd.2 hm

/-- A key absent from the key list looks up to `none`. -/
theorem lookup_eq_none_of_not_mem {α β : Type} [BEq α] [LawfulBEq α]
    (l : List (α × β)) (k : α) (hk : k ∉ l.map Prod.fst) : l.lookup k = none := by
  induction l with
  | nil => rfl
  | cons a t ih =>
    simp only [List.map_cons, List.mem_cons, not_or] at hk
    have : (k == a.1) = false := beq_false_of_ne hk.1
    simp only [List.lookup, this]
    exact ih hk.2

/-- Lookup through a key-preserving value map. -/
theorem lookup_map_val {α β γ : Type} [BEq α] [LawfulBEq α]
    (l : List (α × β)) (f : α × β → γ) (hnd : (l.map Prod.fst).Nodup)
    (k : α) (v : β) (hm : (k, v) ∈ l) :
    (l.map fun p => (p.1, f p)).lookup k = some (f (k, v)) := by
  have hnd' : ((l.map fun p => (p.1, f p)).map Prod.fst).Nodup := by
    simpa [Function.comp] using hnd
  exact lookup_eq_of_mem _ hnd' k (f (k, v)) (List.mem_map.2 ⟨(k, v), hm, rfl⟩)

/-! ### First-maximum characterisation of `pyMaxFold` -/

/-- The scan result is the seed or comes from the list. -/
theorem pyMaxFold_mem (x : String × ℚ) (l : List (String × ℚ)) :
    pyMaxFold x l ∈ x :: l := by
  induction l generalizing x with
  | nil => simp [pyMaxFold]
  | cons c t ih =>
    rw [pyMaxFold]
    rcases List.mem_cons.1 (ih (if x.2 < c.2 then c else x)) with hm | hm
    · rw [hm]
      by_cases h : x.2 < c.2 <;> simp [h]
    · exact List.mem_cons_of_mem _ (List.mem_cons_of_mem _ hm)

/-- Every scanned element's key is bounded by the scan result's key. -/
theorem pyMaxFold_le (x : String × ℚ) (l : List (String × ℚ)) :
    ∀ e ∈ x :: l, e.2 ≤ (pyMaxFold x l).2 := by
  induction l generalizing x with
  | nil =>
    intro e he
    rw [List.mem_singleton] at he
    rw [he, pyMaxFold]
  | cons c t ih =>
    intro e he
    rw [pyMaxFold]
    have hseed : x.2 ≤ (if x.2 < c.2 then c else x).2 ∧ c.2 ≤ (if x.2 < c.2 then c else x).2 := by
      by_cases h : x.2 < c.2 <;> simp [h, le_of_lt, le_of_not_lt]
    have hbase := ih (if x.2 < c.2 then c else x) _ (List.mem_cons_self _ _)
    rcases List.mem_cons.1 he with he | he
    · exact le_trans (he ▸ hseed.1) hbase
    · rcases List.mem_cons.1 he with he | he
      · exact le_trans (he ▸ hseed.2) hbase
      · exact ih _ e (List.mem_cons_of_mem _ he)

/-- The scan result is the FIRST element of the scanned list attaining the
maximal key: every element strictly before it has a strictly smaller key. -/
theorem pyMaxFold_first (x : String × ℚ) (l : List (String × ℚ)) :
    ∃ pre post, x :: l = pre ++ pyMaxFold x l :: post ∧
      ∀ p ∈ pre, p.2 < (pyMaxFold x l).2 := by
  induction l generalizing x with
  | nil => exact ⟨[], [], by rw [pyMaxFold]; simp, by simp⟩
  | cons c t ih =>
    rw [pyMaxFold]
    by_cases h : x.2 < c.2
    · simp only [if_pos h]
      obtain ⟨pre, post, hdec, hlt⟩ := ih c
      refine ⟨x :: pre, post, by rw [List.cons_append, ← hdec], ?_⟩
      intro p hp
      rcases List.mem_cons.1 hp with hp | hp
      · have hc : c.2 ≤ (pyMaxFold c t).2 := pyMaxFold_le c t c (List.mem_cons_self _ _)
        exact hp ▸ lt_of_lt_of_le h hc
      · exact hlt p hp
    · simp only [if_neg h]
      obtain ⟨pre, post, hdec, hlt⟩ := ih x
      cases pre with
      | nil =>
        simp only [List.nil_append, List.cons.injEq] at hdec
        refine ⟨[], c :: t, ?_, by simp⟩
        rw [← hdec.1]
        simp
      | cons a pre' =>
        simp only [List.cons_append, List.cons.injEq] at hdec
        obtain ⟨hax, ht⟩ := hdec
        refine ⟨x :: c :: pre', post, ?_, ?_⟩
        · conv_lhs => rw [ht]
          simp
        have hx : x.2 < (pyMaxFold x t).2 := by
          have := hlt a (List.mem_cons_self _ _)
          rwa [← hax] at this
        intro p hp
        rcases List.mem_cons.1 hp with hp | hp
        · exact hp ▸ hx
        · rcases List.mem_cons.1 hp with hp | hp
          · exact hp ▸ lt_of_le_of_lt (not_lt.1 h) hx
          · exact hlt p (List.mem_cons_of_mem _ hp)

/-- A selected answer always names a scanned option. -/
theorem selectAnswer_mem (fo : List (String × ℚ)) (o : String)
    (h : selectAnswer fo = some o) : ∃ s, (o, s) ∈ fo := by
  match fo with
  | [] => simp [selectAnswer] at h
  | [x] =>
    simp only [selectAnswer, Option.some.injEq] at h
    exact ⟨x.2, by rw [← h]; simp⟩
  | x :: y :: t =>
    simp only [selectAnswer, Option.some.injEq] at h
    refine ⟨(pyMaxFold x (y :: t)).2, ?_⟩
    have hm := pyMaxFold_mem x (y :: t)
    rw [← h]
    simpa using hm

/-- The answers list of `analyze_all_bubbles` maps each question of
`positions` to the selection over its qualifying options. -/
theorem answers_lookup (d : BubbleDetector) (img : GrayImage)
    (positions : List (ℕ × List (String × ℚ × ℚ))) (q : ℕ)
    (opts : List (String × ℚ × ℚ)) (hnd : (positions.map Prod.fst).Nodup)
    (hmem : (q, opts) ∈ positions) :
    (d.analyze_all_bubbles img positions).2.lookup q =
      some (selectAnswer (qualifyingOptions d img opts)) :=
  lookup_map_val positions (fun p => selectAnswer (qualifyingOptions d img p.2)) hnd q opts hmem

/-- Membership in `qualifyingOptions` comes from an option of the question
whose analysis passes both the fill test and the confidence gate. -/
theorem qualifyingOptions_mem (d : BubbleDetector) (img : GrayImage)
    (opts : List (String × ℚ × ℚ)) (o : String) (s : ℚ)
    (hm : (o, s) ∈ qualifyingOptions d img opts) :
    ∃ x y, (o, (x, y)) ∈ opts ∧
      (d.analyze_bubble img (pyInt x) (pyInt y)).is_filled = true ∧
      (4/5 : ℝ) ≤ (d.analyze_bubble img (pyInt x) (pyInt y)).confidence ∧
      (d.analyze_bubble img (pyInt x) (pyInt y)).darkness_score = s := by
  rw [qualifyingOptions, List.mem_filterMap] at hm
  obtain ⟨ov, hov, hf⟩ := hm
  by_cases hg : (d.analyze_bubble img (pyInt ov.2.1) (pyInt ov.2.2)).is_filled = true ∧
      (4/5 : ℝ) ≤ (d.analyze_bubble img (pyInt ov.2.1) (pyInt ov.2.2)).confidence
  · rw [if_pos hg, Option.some.injEq] at hf
    refine ⟨ov.2.1, ov.2.2, ?_, hg.1, hg.2, ?_⟩
    · have h1 : ov.1 = o := congrArg Prod.fst hf
      have hov' : (o, (ov.2.1, ov.2.2)) = ov := by rw [← h1]
      rw [hov']; exact hov
    · exact congrArg Prod.snd hf
  · rw [if_neg hg] at hf
    cases hf

/-- C1: the answer resolver considers exactly the options whose analysis is
filled with confidence at least 0.8; no qualifier means a blank answer
(`None`); otherwise the answer is the first qualifying option attaining the
maximal darkness score (so ties are resolved deterministically by option
order), and any returned answer passed the confidence gate — an option with
confidence below 0.8 is never returned, whatever its darkness. -/
theorem answers_resolution (d : BubbleDetector) (img : GrayImage)
    (positions : List (ℕ × List (String × ℚ × ℚ))) (q : ℕ)
    (opts : List (String × ℚ × ℚ)) (hnd : (positions.map Prod.fst).Nodup)
    (hmem : (q, opts) ∈ positions) :
    (qualifyingOptions d img opts = [] →
       (d.analyze_all_bubbles img positions).2.lookup q = some none) ∧
    (qualifyingOptions d img opts ≠ [] →
       ∃ o s pre post,
         (d.analyze_all_bubbles img positions).2.lookup q = some (some o) ∧
         qualifyingOptions d img opts = pre ++ (o, s) :: post ∧
         (∀ p ∈ pre, p.2 < s) ∧
         (∀ p ∈ qualifyingOptions d img opts, p.2 ≤ s)) ∧
    (∀ o, (d.analyze_all_bubbles img positions).2.lookup q = some (some o) →
       ∃ x y, (o, (x, y)) ∈ opts ∧
         (d.analyze_bubble img (pyInt x) (pyInt y)).is_filled = true ∧
         (4/5 : ℝ) ≤ (d.analyze_bubble img (pyInt x) (pyInt y)).confidence) := by
  have hlook := answers_lookup d img positions q opts hnd hmem
  refine ⟨?_, ?_, ?_⟩
  · intro hQ
    rw [hlook, hQ]
    rfl
  · intro hQ
    match hq : qualifyingOptions d img opts with
    | [] => exact absurd hq hQ
    | [x] =>
      refine ⟨x.1, x.2, [], [], ?_, by simp, by simp, by simp⟩
      rw [hlook, hq]
      rfl
    | x :: y :: t =>
      obtain ⟨pre, post, hdec, hlt⟩ := pyMaxFold_first x (y :: t)
      refine ⟨(pyMaxFold x (y :: t)).1, (pyMaxFold x (y :: t)).2, pre, post, ?_, hdec, hlt, ?_⟩
      · rw [hlook, hq]
        rfl
      · exact pyMaxFold_le x (y :: t)
  · intro o ho
    rw [hlook, Option.some.injEq] at ho
    obtain ⟨s, hs⟩ := selectAnswer_mem _ o ho
    obtain ⟨x, y, hxy, hfill, hconf, _⟩ := qualifyingOptions_mem d img opts o s hs
    exact ⟨x, y, hxy, hfill, hconf⟩

/-- Witness for C1 at a concrete input: one question with one option on a
1x1 image; the default radius-18 window is out of bounds, so no option
qualifies and the resolver reports a blank answer. -/
theorem answers_resolution_witness :
    (([((1:ℕ), [("A", ((0:ℚ), (0:ℚ)))])].map Prod.fst).Nodup) ∧
    (((1:ℕ), [("A", ((0:ℚ), (0:ℚ)))]) ∈ [((1:ℕ), [("A", ((0:ℚ), (0:ℚ)))])]) ∧
    (qualifyingOptions defaultDetector blackPixelImage [("A", ((0:ℚ), (0:ℚ)))] = [] →
      (defaultDetector.analyze_all_bubbles blackPixelImage
          [((1:ℕ), [("A", ((0:ℚ), (0:ℚ)))])]).2.lookup 1 = some none) :=
  ⟨by decide, by decide,
   (answers_resolution defaultDetector blackPixelImage
      [((1:ℕ), [("A", ((0:ℚ), (0:ℚ)))])] 1 [("A", ((0:ℚ), (0:ℚ)))]
      (by decide) (by decide)).1⟩

/-- C9: output completeness of `analyze_all_bubbles` — the results and
answers maps have exactly the key set of `positions` (no question is
dropped), each question's results cover exactly its own options, and each
question's answer is either blank or one of its own option keys. -/
theorem analyze_all_bubbles_complete (d : BubbleDetector) (img : GrayImage)
    (positions : List (ℕ × List (String × ℚ × ℚ)))
    (hnd : (positions.map Prod.fst).Nodup) :
    ((d.analyze_all_bubbles img positions).1.map Prod.fst = positions.map Prod.fst) ∧
    ((d.analyze_all_bubbles img positions).2.map Prod.fst = positions.map Prod.fst) ∧
    (∀ q opts, (q, opts) ∈ positions →
      (∃ rs, (d.analyze_all_bubbles img positions).1.lookup q = some rs ∧
         rs.map Prod.fst = opts.map Prod.fst) ∧
      (∃ a, (d.analyze_all_bubbles img positions).2.lookup q = some a ∧
         (a = none ∨ ∃ o, o ∈ opts.map Prod.fst ∧ a = some o))) := by
  refine ⟨?_, ?_, ?_⟩
  · rw [BubbleDetector.analyze_all_bubbles]
    simp [Function.comp]
  · rw [BubbleDetector.analyze_all_bubbles]
    simp [Function.comp]
  · intro q opts hmem
    constructor
    · refine ⟨opts.map fun ov => (ov.1, d.analyze_bubble img (pyInt ov.2.1) (pyInt ov.2.2)), ?_, ?_⟩
      · exact lookup_map_val positions
          (fun p => p.2.map fun ov => (ov.1, d.analyze_bubble img (pyInt ov.2.1) (pyInt ov.2.2)))
          hnd q opts hmem
      · simp [Function.comp]
    · refine ⟨selectAnswer (qualifyingOptions d img opts), answers_lookup d img positions q opts hnd hmem, ?_⟩
      match hsel : selectAnswer (qualifyingOptions d img opts) with
      | none => exact Or.inl rfl
      | some o =>
        refine Or.inr ⟨o, ?_, rfl⟩
        obtain ⟨s, hs⟩ := selectAnswer_mem _ o hsel
        obtain ⟨x, y, hxy, _, _, _⟩ := qualifyingOptions_mem d img opts o s hs
        exact List.mem_map.2 ⟨(o, (x, y)), hxy, rfl⟩

/-- Witness for C9: on the concrete one-question input, the answers map has
exactly the question key `1`. -/
theorem analyze_all_bubbles_complete_witness :
    (([((1:ℕ), [("B", ((0:ℚ), (0:ℚ)))])].map Prod.fst).Nodup) ∧
    ((defaultDetector.analyze_all_bubbles blackPixelImage
        [((1:ℕ), [("B", ((0:ℚ), (0:ℚ)))])]).2.map Prod.fst =
      [((1:ℕ), [("B", ((0:ℚ), (0:ℚ)))])].map Prod.fst) :=
  ⟨by decide,
   (analyze_all_bubbles_complete defaultDetector blackPixelImage
      [((1:ℕ), [("B", ((0:ℚ), (0:ℚ)))])] (by decide)).2.1⟩

/-! ### The sampling mask and the analysis formulas -/

/-- Elements of the loop range lie between `-r` and `r`. -/
theorem offsetRange_bounds (r : ℕ) (a : ℤ) (h : a ∈ offsetRange r) :
    -(r : ℤ) ≤ a ∧ a ≤ r := by
  rw [offsetRange] at h
  obtain ⟨k, hk, rfl⟩ := List.mem_map.1 h
  rw [List.mem_range] at hk
  omega

/-- The center offset `(0, 0)` always belongs to the circular mask. -/
theorem zero_mem_circleOffsets (r : ℕ) : ((0 : ℤ), (0 : ℤ)) ∈ circleOffsets r := by
  have hmem : (0 : ℤ) ∈ offsetRange r := by
    rw [offsetRange]
    exact List.mem_map.2 ⟨r, List.mem_range.2 (by omega), sub_self (r : ℤ)⟩
  rw [circleOffsets]
  apply List.mem_flatMap.2
  refine ⟨0, hmem, List.mem_filterMap.2 ⟨0, hmem, ?_⟩⟩
  rw [if_pos (by positivity)]

/-- Both components of a mask offset lie between `-r` and `r`. -/
theorem circleOffsets_bounds (r : ℕ) (od : ℤ × ℤ) (h : od ∈ circleOffsets r) :
    -(r : ℤ) ≤ od.1 ∧ od.1 ≤ r ∧ -(r : ℤ) ≤ od.2 ∧ od.2 ≤ r := by
  rw [circleOffsets, List.mem_flatMap] at h
  obtain ⟨dy, hdy, hdx⟩ := h
  rw [List.mem_filterMap] at hdx
  obtain ⟨dx, hdxm, hif⟩ := hdx
  obtain ⟨h1, h2⟩ := offsetRange_bounds r dy hdy
  obtain ⟨h3, h4⟩ := offsetRange_bounds r dx hdxm
  by_cases hc : dx * dx + dy * dy ≤ (r : ℤ) * r
  · rw [if_pos hc, Option.some.injEq] at hif
    rw [← hif]
    exact ⟨h1, h2, h3, h4⟩
  · rw [if_neg hc] at hif
    cases hif

/-- The sample list is never empty: the center pixel is always sampled. -/
theorem samplePixels_ne_nil (r : ℕ) (img : GrayImage) (cx cy : ℤ) :
    samplePixels r img cx cy ≠ [] := by
  rw [samplePixels]
  exact List.ne_nil_of_mem (List.mem_map.2 ⟨(0, 0), zero_mem_circleOffsets r, rfl⟩)

/-- In-bounds samples stay within the range of the image's pixels. -/
theorem samplePixels_bounds (r : ℕ) (img : GrayImage) (cx cy : ℤ)
    (hin : outOfBounds r img cx cy = false)
    (hpix : ∀ y x, y < img.height → x < img.width →
      0 ≤ img.pixel y x ∧ img.pixel y x ≤ 255) :
    ∀ v ∈ samplePixels r img cx cy, 0 ≤ v ∧ v ≤ 255 := by
  intro v hv
  rw [samplePixels, List.mem_map] at hv
  obtain ⟨od, hod, rfl⟩ := hv
  obtain ⟨h1, h2, h3, h4⟩ := circleOffsets_bounds r od hod
  rw [outOfBounds] at hin
  simp only [Bool.or_eq_false_iff, decide_eq_false_iff_not, not_lt, not_le] at hin
  obtain ⟨⟨⟨hx0, hxw⟩, hy0⟩, hyh⟩ := hin
  exact hpix _ _ (by omega) (by omega)

/-- The mean of a nonempty list of values in `[0, 255]` lies in `[0, 255]`. -/
theorem listMean_bounds (l : List ℚ) (hne : l ≠ [])
    (hb : ∀ v ∈ l, 0 ≤ v ∧ v ≤ 255) : 0 ≤ listMean l ∧ listMean l ≤ 255 := by
  have hlen : 0 < (l.length : ℚ) := by
    have := List.length_pos.2 hne
    exact_mod_cast this
  constructor
  · exact div_nonneg (List.sum_nonneg fun v hv => (hb v hv).1) (le_of_lt hlen)
  · rw [listMean, div_le_iff₀ hlen]
    have hs := List.sum_le_card_nsmul l 255 fun v hv => (hb v hv).2
    rw [nsmul_eq_mul] at hs
    linarith

/-- `analyze_bubble` on an in-bounds center, written out. -/
theorem analyze_bubble_eq (d : BubbleDetector) (img : GrayImage) (cx cy : ℤ)
    (hin : outOfBounds d.analysis_radius img cx cy = false) :
    d.analyze_bubble img cx cy =
      ⟨(255 - listMean (samplePixels d.analysis_radius img cx cy)) / 255,
       decide (d.filled_threshold ≤
         (255 - listMean (samplePixels d.analysis_radius img cx cy)) / 255),
       min 1 (max 0 (1 - listStd (samplePixels d.analysis_radius img cx cy) / 100))⟩ := by
  rw [BubbleDetector.analyze_bubble, hin]
  simp only [Bool.false_eq_true, if_false,
    if_neg (samplePixels_ne_nil d.analysis_radius img cx cy)]

/-- C5: for every in-bounds bubble sample of an 8-bit image,
`darkness_score = (255 - mean(pixel_values)) / 255` over the circular mask,
`confidence = clamp(1 - stdev / 100, 0, 1)`, `is_filled` holds exactly when
the darkness reaches `filled_threshold`, the returned darkness and
confidence lie in `[0, 1]`, and the default threshold is 0.3. -/
theorem analyze_bubble_formula (d : BubbleDetector) (img : GrayImage) (cx cy : ℤ)
    (hin : outOfBounds d.analysis_radius img cx cy = false)
    (hpix : ∀ y x, y < img.height → x < img.width →
      0 ≤ img.pixel y x ∧ img.pixel y x ≤ 255) :
    (d.analyze_bubble img cx cy).darkness_score =
      (255 - listMean (samplePixels d.analysis_radius img cx cy)) / 255 ∧
    ((d.analyze_bubble img cx cy).is_filled = true ↔
      d.filled_threshold ≤ (d.analyze_bubble img cx cy).darkness_score) ∧
    (d.analyze_bubble img cx cy).confidence =
      min 1 (max 0 (1 - Real.sqrt (listVariance (samplePixels d.analysis_radius img cx cy)) / 100)) ∧
    0 ≤ (d.analyze_bubble img cx cy).darkness_score ∧
    (d.analyze_bubble img cx cy).darkness_score ≤ 1 ∧
    0 ≤ (d.analyze_bubble img cx cy).confidence ∧
    (d.analyze_bubble img cx cy).confidence ≤ 1 ∧
    defaultDetector.filled_threshold = 3/10 := by
  have heq := analyze_bubble_eq d img cx cy hin
  have hmean := listMean_bounds (samplePixels d.analysis_radius img cx cy)
    (samplePixels_ne_nil d.analysis_radius img cx cy)
    (samplePixels_bounds d.analysis_radius img cx cy hin hpix)
  rw [heq]
  refine ⟨rfl, ?_, rfl, ?_, ?_, ?_, ?_, rfl⟩
  · exact decide_eq_true_iff
  · have : (0:ℚ) ≤ 255 - listMean (samplePixels d.analysis_radius img cx cy) := by
      linarith [hmean.2]
    positivity
  · rw [div_le_one (by norm_num : (0:ℚ) < 255)]
    linarith [hmean.1]
  · exact le_min zero_le_one (le_max_left 0 _)
  · exact min_le_left 1 _

/-- Witness for C5: in-bounds analysis of the all-black 1x1 image with a
radius-0 detector has a nonnegative darkness score. -/
theorem analyze_bubble_formula_witness :
    outOfBounds (BubbleDetector.mk 0 (3/10)).analysis_radius blackPixelImage 0 0 = false ∧
    (∀ y x, y < blackPixelImage.height → x < blackPixelImage.width →
      0 ≤ blackPixelImage.pixel y x ∧ blackPixelImage.pixel y x ≤ 255) ∧
    0 ≤ ((BubbleDetector.mk 0 (3/10)).analyze_bubble blackPixelImage 0 0).darkness_score :=
  ⟨by decide, fun _ _ _ _ => ⟨le_refl 0, by show (0:ℚ) ≤ 255; norm_num⟩,
   (analyze_bubble_formula (BubbleDetector.mk 0 (3/10)) blackPixelImage 0 0
      (by decide) (fun _ _ _ _ => ⟨le_refl 0, by show (0:ℚ) ≤ 255; norm_num⟩)).2.2.2.1⟩

/-- C7: threshold monotonicity — with the same analysis radius, a bubble
filled at the higher threshold is filled at the lower one; raising the
threshold never turns an unfilled bubble into a filled one. -/
theorem is_filled_monotone (d1 d2 : BubbleDetector) (img : GrayImage) (cx cy : ℤ)
    (hr : d1.analysis_radius = d2.analysis_radius)
    (ht : d1.filled_threshold ≤ d2.filled_threshold)
    (h2 : (d2.analyze_bubble img cx cy).is_filled = true) :
    (d1.analyze_bubble img cx cy).is_filled = true := by
  cases hob : outOfBounds d2.analysis_radius img cx cy with
  | true =>
    rw [BubbleDetector.analyze_bubble, hob] at h2
    simp at h2
  | false =>
    rw [analyze_bubble_eq d2 img cx cy hob] at h2
    rw [analyze_bubble_eq d1 img cx cy (hr ▸ hob), decide_eq_true_iff]
    rw [decide_eq_true_iff] at h2
    rw [hr]
    exact le_trans ht h2

/-- Witness for C7: on the all-black pixel, a detector with threshold 0.3
fills, hence so does one with threshold 0.2. -/
theorem is_filled_monotone_witness :
    (BubbleDetector.mk 0 (1/5)).analysis_radius = (BubbleDetector.mk 0 (3/10)).analysis_radius ∧
    (BubbleDetector.mk 0 (1/5)).filled_threshold ≤ (BubbleDetector.mk 0 (3/10)).filled_threshold ∧
    ((BubbleDetector.mk 0 (3/10)).analyze_bubble blackPixelImage 0 0).is_filled = true ∧
    ((BubbleDetector.mk 0 (1/5)).analyze_bubble blackPixelImage 0 0).is_filled = true := by
  have h2 : ((BubbleDetector.mk 0 (3/10)).analyze_bubble blackPixelImage 0 0).is_filled = true := by
    rw [analyze_bubble_blackPixel]
    exact decide_eq_true (by norm_num : (3:ℚ)/10 ≤ 1)
  exact ⟨rfl, by norm_num, h2,
    is_filled_monotone (BubbleDetector.mk 0 (1/5)) (BubbleDetector.mk 0 (3/10))
      blackPixelImage 0 0 rfl (by norm_num) h2⟩


/-- Invariant of the modular candidate loop started at a seed best. -/
theorem pickNearestCenterAux_spec (ex ey : ℤ) (t : List Rect) :
    ∀ b : Rect, ∃ r, pickNearestCenterAux ex ey (some b) t = some r ∧
      (r = b ∨ r ∈ t) ∧ centerDist2 ex ey r ≤ centerDist2 ex ey b ∧
      ∀ c ∈ t, centerDist2 ex ey r ≤ centerDist2 ex ey c := by
  induction t with
  | nil => intro b; exact ⟨b, rfl, Or.inl rfl, le_refl _, by simp⟩
  | cons c t ih =>
    intro b
    rw [pickNearestCenterAux]
    by_cases hd : centerDist2 ex ey c < centerDist2 ex ey b
    · rw [if_pos hd]
      obtain ⟨r, hr, hmem, hle, hall⟩ := ih c
      refine ⟨r, hr, ?_, le_trans hle (le_of_lt hd), ?_⟩
      · rcases hmem with hm | hm
        · exact Or.inr (hm ▸ List.mem_cons_self _ _)
        · exact Or.inr (List.mem_cons_of_mem _ hm)
      · intro e he
        rcases List.mem_cons.1 he with he | he
        · exact he ▸ hle
        · exact hall e he
    · rw [if_neg hd]
      obtain ⟨r, hr, hmem, hle, hall⟩ := ih b
      refine ⟨r, hr, ?_, hle, ?_⟩
      · rcases hmem with hm | hm
        · exact Or.inl hm
        · exact Or.inr (List.mem_cons_of_mem _ hm)
      · intro e he
        rcases List.mem_cons.1 he with he | he
        · exact he ▸ le_trans hle (not_lt.1 hd)
        · exact hall e he

/-- On a nonempty candidate list the modular loop returns a candidate at
minimal center distance. -/
theorem pickNearestCenter_spec (ex ey : ℤ) (cands : List Rect)
    (hne : cands ≠ []) :
    ∃ r, pickNearestCenter ex ey cands = some r ∧ r ∈ cands ∧
      ∀ c ∈ cands, centerDist2 ex ey r ≤ centerDist2 ex ey c := by
  match cands with
  | [] => exact absurd rfl hne
  | c :: t =>
    obtain ⟨r, hr, hmem, hle, hall⟩ := pickNearestCenterAux_spec ex ey t c
    refine ⟨r, hr, ?_, ?_⟩
    · rcases hmem with hm | hm
      · exact hm ▸ List.mem_cons_self _ _
      · exact List.mem_cons_of_mem _ hm
    · intro e he
      rcases List.mem_cons.1 he with he | he
      · exact he ▸ hle
      · exact hall e he

/-- The modular loop returns `none` exactly on the empty candidate list. -/
theorem pickNearestCenter_eq_none (ex ey : ℤ) (cands : List Rect) :
    pickNearestCenter ex ey cands = none ↔ cands = [] := by
  constructor
  · intro hnone
    by_contra hne
    obtain ⟨r, hr, -, -⟩ := pickNearestCenter_spec ex ey cands hne
    rw [hr] at hnone
    cases hnone
  · intro h
    rw [h]
    rfl

/-- A candidate returned by the modular loop belongs to the list and has
minimal center distance. -/
theorem pickNearestCenter_sound (ex ey : ℤ) (cands : List Rect) (r : Rect)
    (h : pickNearestCenter ex ey cands = some r) :
    r ∈ cands ∧ ∀ c ∈ cands, centerDist2 ex ey r ≤ centerDist2 ex ey c := by
  match cands with
  | [] => cases h
  | c :: t =>
    obtain ⟨r', hr', hmem, hall⟩ := pickNearestCenter_spec ex ey (c :: t) (by simp)
    rw [hr', Option.some.injEq] at h
    exact h ▸ ⟨hmem, hall⟩

/-- Invariant of the legacy candidate loop started at a seed best within the
100-pixel bound. -/
theorem pickNearestCornerAux_spec (ex ey : ℤ) (t : List Rect) :
    ∀ b : Rect, cornerDist2 ex ey b < 10000 →
    ∃ r, pickNearestCornerAux ex ey (some (b, cornerDist2 ex ey b)) t =
        some (r, cornerDist2 ex ey r) ∧
      (r = b ∨ r ∈ t) ∧ cornerDist2 ex ey r ≤ cornerDist2 ex ey b ∧
      cornerDist2 ex ey r < 10000 ∧
      ∀ c ∈ t, cornerDist2 ex ey c < 10000 →
        cornerDist2 ex ey r ≤ cornerDist2 ex ey c := by
  induction t with
  | nil => intro b hb; exact ⟨b, rfl, Or.inl rfl, le_refl _, hb, by simp⟩
  | cons c t ih =>
    intro b hb
    rw [pickNearestCornerAux]
    by_cases hd : cornerDist2 ex ey c < 10000 ∧ cornerDist2 ex ey c < cornerDist2 ex ey b
    · rw [if_pos hd]
      obtain ⟨r, hr, hmem, hle, hlt, hall⟩ := ih c hd.1
      refine ⟨r, hr, ?_, le_trans hle (le_of_lt hd.2), hlt, ?_⟩
      · rcases hmem with hm | hm
        · exact Or.inr (hm ▸ List.mem_cons_self _ _)
        · exact Or.inr (List.mem_cons_of_mem _ hm)
      · intro e he hewithin
        rcases List.mem_cons.1 he with he | he
        · exact he ▸ hle
        · exact hall e he hewithin
    · rw [if_neg hd]
      obtain ⟨r, hr, hmem, hle, hlt, hall⟩ := ih b hb
      refine ⟨r, hr, ?_, hle, hlt, ?_⟩
      · rcases hmem with hm | hm
        · exact Or.inl hm
        · exact Or.inr (List.mem_cons_of_mem _ hm)
      · intro e he hewithin
        rcases List.mem_cons.1 he with he | he
        · have hge : cornerDist2 ex ey b ≤ cornerDist2 ex ey c := by
            rcases not_and_or.1 hd with hc | hc
            · exact absurd (he ▸ hewithin) hc
            · exact not_lt.1 hc
          exact he ▸ le_trans hle hge
        · exact hall e he hewithin

/-- Soundness of the legacy loop from the empty seed: a returned candidate
belongs to the list, lies within 100 pixels of the expected corner, and has
minimal corner distance among the candidates within 100 pixels. -/
theorem pickNearestCornerAux_none_spec (ex ey : ℤ) (t : List Rect) (r : Rect)
    (rd : ℤ) (h : pickNearestCornerAux ex ey none t = some (r, rd)) :
    r ∈ t ∧ cornerDist2 ex ey r < 10000 ∧
      ∀ c ∈ t, cornerDist2 ex ey c < 10000 →
        cornerDist2 ex ey r ≤ cornerDist2 ex ey c := by
  induction t with
  | nil => cases h
  | cons c t ih =>
    rw [pickNearestCornerAux] at h
    by_cases hd : cornerDist2 ex ey c < 10000
    · rw [if_pos hd] at h
      obtain ⟨r', hr', hmem, hle, hlt, hall⟩ := pickNearestCornerAux_spec ex ey t c hd
      rw [hr', Option.some.injEq] at h
      have hrr : r' = r := congrArg Prod.fst h
      subst hrr
      refine ⟨?_, hlt, ?_⟩
      · rcases hmem with hm | hm
        · exact hm ▸ List.mem_cons_self _ _
        · exact List.mem_cons_of_mem _ hm
      · intro e he hewithin
        rcases List.mem_cons.1 he with he | he
        · exact he ▸ hle
        · exact hall e he hewithin
    · rw [if_neg hd] at h
      obtain ⟨hmem, hlt, hall⟩ := ih h
      refine ⟨List.mem_cons_of_mem _ hmem, hlt, ?_⟩
      intro e he hewithin
      rcases List.mem_cons.1 he with he | he
      · exact absurd (he ▸ hewithin) hd
      · exact hall e he hewithin

/-- Soundness of the legacy nearest-candidate choice. -/
theorem pickNearestCorner_sound (ex ey : ℤ) (cands : List Rect) (r : Rect)
    (h : pickNearestCorner ex ey cands = some r) :
    r ∈ cands ∧ cornerDist2 ex ey r < 10000 ∧
      ∀ c ∈ cands, cornerDist2 ex ey c < 10000 →
        cornerDist2 ex ey r ≤ cornerDist2 ex ey c := by
  rw [pickNearestCorner] at h
  match hab : pickNearestCornerAux ex ey none cands with
  | none => rw [hab] at h; cases h
  | some (r', rd') =>
    rw [hab] at h
    have h1 : r' = r := Option.some.inj h
    exact h1 ▸ pickNearestCornerAux_none_spec ex ey cands r' rd' hab

/-- The anchors field of the modular result is the matching loop's output in
both branches. -/
theorem detectAnchorsStatic_anchors (w h : ℤ) (rects : List Rect) :
    (detectAnchorsStatic w h rects).anchors = staticAnchors w h rects := by
  rw [detectAnchorsStatic]
  by_cases h4 : (staticAnchors w h rects).length < 4
  · rw [if_pos h4]
  · rw [if_neg h4]

/-- With at least one square candidate, the modular matching loop fills all
four anchors, each with some candidate. -/
theorem staticAnchors_full (w h : ℤ) (rects : List Rect)
    (hne : squareCandidates rects ≠ []) :
    (staticAnchors w h rects).map Prod.fst =
      ["top_left", "top_right", "bottom_left", "bottom_right"] ∧
    ∀ nr ∈ staticAnchors w h rects, nr.2 ∈ squareCandidates rects := by
  obtain ⟨r1, hr1, hm1, -⟩ := pickNearestCenter_spec anchorMargin anchorMargin _ hne
  obtain ⟨r2, hr2, hm2, -⟩ :=
    pickNearestCenter_spec (w - anchorMargin - anchorSize) anchorMargin _ hne
  obtain ⟨r3, hr3, hm3, -⟩ :=
    pickNearestCenter_spec anchorMargin (h - anchorMargin - anchorSize) _ hne
  obtain ⟨r4, hr4, hm4, -⟩ :=
    pickNearestCenter_spec (w - anchorMargin - anchorSize) (h - anchorMargin - anchorSize) _ hne
  have hanch : staticAnchors w h rects =
      [("top_left", r1), ("top_right", r2), ("bottom_left", r3), ("bottom_right", r4)] := by
    rw [staticAnchors, expectedAnchors]
    simp [List.filterMap_cons, hr1, hr2, hr3, hr4]
  rw [hanch]
  refine ⟨rfl, ?_⟩
  intro nr hnr
  rcases List.mem_cons.1 hnr with he | he
  · rw [he]; exact hm1
  rcases List.mem_cons.1 he with he | he
  · rw [he]; exact hm2
  rcases List.mem_cons.1 he with he | he
  · rw [he]; exact hm3
  rcases List.mem_cons.1 he with he | he
  · rw [he]; exact hm4
  · cases he

/-- The modular matching loop produces either no anchors (no candidates) or
all four. -/
theorem staticAnchors_len (w h : ℤ) (rects : List Rect) :
    (staticAnchors w h rects).length = 0 ∨ (staticAnchors w h rects).length = 4 := by
  by_cases hne : squareCandidates rects = []
  · left
    rw [staticAnchors, expectedAnchors]
    simp [List.filterMap_cons, hne, pickNearestCenter, pickNearestCenterAux]
  · right
    have hkeys := (staticAnchors_full w h rects hne).1
    have := congrArg List.length hkeys
    simpa using this

/-- C10: the modular anchor detector has no maximum-distance rejection —
whenever the square-candidate list is nonempty, all four named anchors are
assigned some candidate and the detector reports success. -/
theorem static_detector_no_rejection (w h : ℤ) (rects : List Rect)
    (hne : squareCandidates rects ≠ []) :
    (detectAnchorsStatic w h rects).success = true ∧
    (detectAnchorsStatic w h rects).anchors.map Prod.fst =
      ["top_left", "top_right", "bottom_left", "bottom_right"] ∧
    ∀ nr ∈ (detectAnchorsStatic w h rects).anchors,
      nr.2 ∈ squareCandidates rects := by
  obtain ⟨hkeys, hmem⟩ := staticAnchors_full w h rects hne
  have hlen : (staticAnchors w h rects).length = 4 := by
    have := congrArg List.length hkeys
    simpa using this
  have hres : detectAnchorsStatic w h rects =
      ⟨true, "Anchors detected", staticAnchors w h rects⟩ := by
    rw [detectAnchorsStatic, if_neg (by omega)]
  rw [hres]
  exact ⟨rfl, hkeys, hmem⟩

/-- Witness for C10: a single far-away square candidate still yields
success. -/
theorem static_detector_no_rejection_witness :
    squareCandidates [Rect.mk 30 30 30 30] ≠ [] ∧
    (detectAnchorsStatic 200 200 [Rect.mk 30 30 30 30]).success = true := by
  have hsq : squareCandidates [Rect.mk 30 30 30 30] = [Rect.mk 30 30 30 30] := by
    simp only [squareCandidates, List.filter_cons, List.filter_nil, decide_eq_true_eq]
    norm_num
  have hne : squareCandidates [Rect.mk 30 30 30 30] ≠ [] := by
    rw [hsq]
    simp
  exact ⟨hne, (static_detector_no_rejection 200 200 [Rect.mk 30 30 30 30] hne).1⟩

/-- C2 (amended): the legacy detector succeeds exactly when at least 3 of
the 4 anchors resolve and its message always reports the detected count;
the modular detector succeeds exactly when all 4 anchors resolve — which,
because its loop assigns a candidate to every anchor whenever any candidate
exists, is also equivalent to at least 3 resolving — and its failure result
is structured but carries a fixed message that does not report the count. -/
theorem anchor_detection_reporting (w h : ℤ) (rects : List Rect) :
    ((detectAnchorsLegacy w h rects).success = true ↔
       3 ≤ (detectAnchorsLegacy w h rects).anchors.length) ∧
    ((detectAnchorsLegacy w h rects).message =
       "Detected " ++ toString (detectAnchorsLegacy w h rects).anchors.length ++
         "/4 anchors") ∧
    reportsCount (detectAnchorsLegacy w h rects).message
      (detectAnchorsLegacy w h rects).anchors.length ∧
    ((detectAnchorsStatic w h rects).success = true ↔
       (detectAnchorsStatic w h rects).anchors.length = 4) ∧
    ((detectAnchorsStatic w h rects).success = true ↔
       3 ≤ (detectAnchorsStatic w h rects).anchors.length) ∧
    ((detectAnchorsStatic w h rects).success = false →
       (detectAnchorsStatic w h rects).message = "Failed to detect all anchors") := by
  have hiff4 : (detectAnchorsStatic w h rects).success = true ↔
      (detectAnchorsStatic w h rects).anchors.length = 4 := by
    rw [detectAnchorsStatic_anchors]
    by_cases h4 : (staticAnchors w h rects).length < 4
    · rw [detectAnchorsStatic, if_pos h4]
      constructor
      · intro hf; cases hf
      · intro hlen; exact absurd hlen (by omega)
    · rw [detectAnchorsStatic, if_neg h4]
      rcases staticAnchors_len w h rects with h0 | hfour
      · exact absurd h0 (by omega)
      · exact ⟨fun _ => hfour, fun _ => rfl⟩
  refine ⟨decide_eq_true_iff, rfl, ?_, hiff4, ?_, ?_⟩
  · show (toString (legacyAnchors w h rects).length).toList <:+:
      ("Detected " ++ toString (legacyAnchors w h rects).length ++ "/4 anchors").toList
    refine ⟨"Detected ".toList, "/4 anchors".toList, ?_⟩
    simp [String.toList]
  · rw [hiff4, detectAnchorsStatic_anchors]
    rcases staticAnchors_len w h rects with h0 | hfour
    · rw [h0]; constructor <;> intro hc <;> omega
    · rw [hfour]; constructor <;> intro hc <;> omega
  · intro hfail
    rw [detectAnchorsStatic]
    by_cases h4 : (staticAnchors w h rects).length < 4
    · rw [if_pos h4]
    · rw [detectAnchorsStatic, if_neg h4] at hfail
      cases hfail

/-- Counterexample for C2 as stated: with no candidates the modular detector
resolves 0 of 4 anchors and returns a structured failure, but its message
does not report the count detected. -/
theorem anchor_detection_count_cex :
    (detectAnchorsStatic 1000 1000 []).success = false ∧
    (detectAnchorsStatic 1000 1000 []).anchors.length < 3 ∧
    ¬ reportsCount (detectAnchorsStatic 1000 1000 []).message
        (detectAnchorsStatic 1000 1000 []).anchors.length := by
  have h0 : detectAnchorsStatic 1000 1000 [] =
      ⟨false, "Failed to detect all anchors", []⟩ := rfl
  rw [h0]
  refine ⟨rfl, by norm_num, ?_⟩
  decide

/-- Equal keys in a distinct-key association list carry equal values. -/
theorem mem_eq_of_nodup_keys {α β : Type} [BEq α] [LawfulBEq α]
    (l : List (α × β)) (hnd : (l.map Prod.fst).Nodup) (k : α) (v1 v2 : β)
    (h1 : (k, v1) ∈ l) (h2 : (k, v2) ∈ l) : v1 = v2 := by
  have e1 := lookup_eq_of_mem l hnd k v1 h1
  have e2 := lookup_eq_of_mem l hnd k v2 h2
  rw [e1] at e2
  exact Option.some.inj e2

/-- The four expected anchor names are distinct. -/
theorem expectedAnchors_keys_nodup (w h : ℤ) :
    ((expectedAnchors w h).map Prod.fst).Nodup := by
  have hkeys : (expectedAnchors w h).map Prod.fst =
      ["top_left", "top_right", "bottom_left", "bottom_right"] := rfl
  rw [hkeys]
  decide

/-- C8 (amended): an anchor assigned by the modular detector is the square
candidate of minimal bounding-box-center distance to the expected anchor
center, with no maximum-distance rejection; an anchor assigned by the legacy
detector is within 100 pixels of the expected position and minimal among
such candidates, but by top-left-corner distance rather than center
distance. -/
theorem anchor_assignment (w h : ℤ) (rects : List Rect) (name : String)
    (r : Rect) (ex ey : ℤ) (hexp : (name, (ex, ey)) ∈ expectedAnchors w h) :
    ((name, r) ∈ (detectAnchorsStatic w h rects).anchors →
       r ∈ squareCandidates rects ∧
       ∀ c ∈ squareCandidates rects, centerDist2 ex ey r ≤ centerDist2 ex ey c) ∧
    ((name, r) ∈ (detectAnchorsLegacy w h rects).anchors →
       r ∈ squareCandidates rects ∧ cornerDist2 ex ey r < 10000 ∧
       ∀ c ∈ squareCandidates rects, cornerDist2 ex ey c < 10000 →
         cornerDist2 ex ey r ≤ cornerDist2 ex ey c) := by
  constructor
  · intro hmem
    rw [detectAnchorsStatic_anchors, staticAnchors] at hmem
    obtain ⟨ne, hne, hf⟩ := List.mem_filterMap.1 hmem
    match hopt : pickNearestCenter ne.2.1 ne.2.2 (squareCandidates rects) with
    | none => rw [hopt] at hf; cases hf
    | some r'' =>
      rw [hopt] at hf
      have hpair := Option.some.inj hf
      have hname : ne.1 = name := congrArg Prod.fst hpair
      have hrr : r'' = r := congrArg Prod.snd hpair
      have hne' : (name, ne.2) ∈ expectedAnchors w h := by
        rw [← hname]
        exact hne
      have hexy : ne.2 = (ex, ey) :=
        mem_eq_of_nodup_keys _ (expectedAnchors_keys_nodup w h) name _ _ hne' hexp
      rw [hexy] at hopt
      rw [← hrr]
      exact pickNearestCenter_sound ex ey _ r'' hopt
  · intro hmem
    have hmem' : (name, r) ∈ legacyAnchors w h rects := hmem
    rw [legacyAnchors] at hmem'
    obtain ⟨ne, hne, hf⟩ := List.mem_filterMap.1 hmem'
    match hopt : pickNearestCorner ne.2.1 ne.2.2 (squareCandidates rects) with
    | none => rw [hopt] at hf; cases hf
    | some r'' =>
      rw [hopt] at hf
      have hpair := Option.some.inj hf
      have hname : ne.1 = name := congrArg Prod.fst hpair
      have hrr : r'' = r := congrArg Prod.snd hpair
      have hne' : (name, ne.2) ∈ expectedAnchors w h := by
        rw [← hname]
        exact hne
      have hexy : ne.2 = (ex, ey) :=
        mem_eq_of_nodup_keys _ (expectedAnchors_keys_nodup w h) name _ _ hne' hexp
      rw [hexy] at hopt
      rw [← hrr]
      exact pickNearestCorner_sound ex ey _ r'' hopt

/-- Counterexample for C8 as stated: the modular detector assigns the
top-left anchor a candidate whose center lies farther from the expected
center than the whole image width (squared distance above `1000²`), so no
sanity-distance rejection exists. -/
theorem anchor_assignment_cex :
    ("top_left", Rect.mk 900 900 30 30) ∈
      (detectAnchorsStatic 1000 1000 [Rect.mk 900 900 30 30]).anchors ∧
    ("top_left", ((75:ℤ), (75:ℤ))) ∈ expectedAnchors 1000 1000 ∧
    (1000:ℚ)^2 < centerDist2 75 75 (Rect.mk 900 900 30 30) := by
  have hsq : squareCandidates [Rect.mk 900 900 30 30] = [Rect.mk 900 900 30 30] := by
    simp only [squareCandidates, List.filter_cons, List.filter_nil, decide_eq_true_eq]
    norm_num
  refine ⟨?_, by decide, ?_⟩
  · rw [detectAnchorsStatic_anchors, staticAnchors, hsq]
    simp [expectedAnchors, List.filterMap_cons, pickNearestCenter, pickNearestCenterAux]
  · rw [centerDist2]
    norm_num [anchorSize]

/-- Witness for C8: a nearby candidate is assigned to the top-left anchor
and is minimal among the (single) candidates. -/
theorem anchor_assignment_witness :
    (("top_left", ((75:ℤ), (75:ℤ))) ∈ expectedAnchors 300 300) ∧
    (("top_left", Rect.mk 70 70 30 30) ∈
        (detectAnchorsStatic 300 300 [Rect.mk 70 70 30 30]).anchors →
      Rect.mk 70 70 30 30 ∈ squareCandidates [Rect.mk 70 70 30 30] ∧
      ∀ c ∈ squareCandidates [Rect.mk 70 70 30 30],
        centerDist2 75 75 (Rect.mk 70 70 30 30) ≤ centerDist2 75 75 c) :=
  ⟨by decide,
   (anchor_assignment 300 300 [Rect.mk 70 70 30 30] "top_left"
      (Rect.mk 70 70 30 30) 75 75 (by decide)).1⟩


/-- Keys of a key-preserving `filterMap` come from the original keys. -/
theorem keys_filterMap_sub {α β γ : Type} [BEq α] [LawfulBEq α]
    (g : β → Option γ) (l : List (α × β)) (k : α)
    (hk : k ∈ (l.filterMap fun p => (g p.2).map fun c => (p.1, c)).map Prod.fst) :
    k ∈ l.map Prod.fst := by
  obtain ⟨e, he, hek⟩ := List.mem_map.1 hk
  obtain ⟨p, hp, hf⟩ := List.mem_filterMap.1 he
  match hg : g p.2 with
  | none => rw [hg] at hf; cases hf
  | some c =>
    rw [hg] at hf
    have he' : (p.1, c) = e := Option.some.inj hf
    refine List.mem_map.2 ⟨p, hp, ?_⟩
    rw [← hek, ← he']

/-- Lookup in a key-preserving `filterMap` over a distinct-key association
list computes the optional value of the stored entry. -/
theorem lookup_filterMap_keyed {α β γ : Type} [BEq α] [LawfulBEq α]
    (g : β → Option γ) (l : List (α × β)) (hnd : (l.map Prod.fst).Nodup)
    (k : α) (v : β) (hm : (k, v) ∈ l) :
    (l.filterMap fun p => (g p.2).map fun c => (p.1, c)).lookup k = g v := by
  induction l with
  | nil => cases hm
  | cons a t ih =>
    simp only [List.map_cons, List.nodup_cons] at hnd
    rw [List.filterMap_cons]
    rcases List.mem_cons.1 hm with hm | hm
    · subst hm
      match hg : g v with
      | none =>
        simp only [Option.map_none']
        exact lookup_eq_none_of_not_mem _ k fun hk =>
          hnd.1 (keys_filterMap_sub g t k hk)
      | some c =>
        simp only [Option.map_some']
        simp [List.lookup]
    · have hk : k ≠ a.1 := by
        intro h
        exact hnd.1 (h ▸ (List.mem_map.2 ⟨(k, v), hm, rfl⟩))
      have hb : (k == a.1) = false := beq_false_of_ne hk
      match hg : g a.2 with
      | none =>
        simp only [Option.map_none']
        exact ih hnd.2 hm
      | some c =>
        simp only [Option.map_some', List.lookup, hb]
        exact ih hnd.2 hm

/-- Lookup in a key-preserving `filterMap` over a distinct key list computes
the optional value of the key. -/
theorem lookup_filterMap_letters {γ : Type} (f : String → Option γ)
    (letters : List String) (hnd : letters.Nodup) (o : String)
    (ho : o ∈ letters) :
    (letters.filterMap fun o' => (f o').map fun c => (o', c)).lookup o = f o := by
  induction letters with
  | nil => cases ho
  | cons a t ih =>
    rw [List.nodup_cons] at hnd
    rw [List.filterMap_cons]
    rcases List.mem_cons.1 ho with ho | ho
    · subst ho
      match hg : f o with
      | none =>
        simp only [Option.map_none']
        refine lookup_eq_none_of_not_mem _ o fun hk => ?_
        obtain ⟨e, he, hek⟩ := List.mem_map.1 hk
        obtain ⟨p, hp, hf⟩ := List.mem_filterMap.1 he
        match hgp : f p with
        | none => rw [hgp] at hf; cases hf
        | some c =>
          rw [hgp] at hf
          have he' : (p, c) = e := Option.some.inj hf
          apply hnd.1
          have hpo : p = o := by rw [← hek, ← he']
          exact hpo ▸ hp
      | some c =>
        simp only [Option.map_some']
        simp [List.lookup]
    · have hk : o ≠ a := fun h => hnd.1 (h ▸ ho)
      have hb : (o == a) = false := beq_false_of_ne hk
      match hg : f a with
      | none =>
        simp only [Option.map_none']
        exact ih hnd.2 ho
      | some c =>
        simp only [Option.map_some', List.lookup, hb]
        exact ih hnd.2 ho

/-- A key outside the iterated letter list is absent from the legacy inner
output. -/
theorem lookup_letters_none {γ : Type} (f : String → Option γ)
    (letters : List String) (o : String) (ho : o ∉ letters) :
    (letters.filterMap fun o' => (f o').map fun c => (o', c)).lookup o = none := by
  refine lookup_eq_none_of_not_mem _ o fun hk => ?_
  obtain ⟨e, he, hek⟩ := List.mem_map.1 hk
  obtain ⟨p, hp, hf⟩ := List.mem_filterMap.1 he
  match hgp : f p with
  | none => rw [hgp] at hf; cases hf
  | some c =>
    rw [hgp] at hf
    have he' : (p, c) = e := Option.some.inj hf
    apply ho
    have : p = o := by rw [← hek, ← he']
    exact this ▸ hp

/-- C4 (amended): when anchors were detected and a document is loaded, the
modular coordinate mapper emits a position for a bubble descriptor exactly
when the descriptor's referenced anchor is among the detected anchors, and
that position is the anchor position plus the `relative_to_anchor` offset
componentwise; a descriptor whose anchor is missing is omitted entirely.
The legacy mapper behaves the same but only for the option keys `A`-`D`: a
descriptor with any other option key is always omitted, even when its
referenced anchor is present. -/
theorem coordinate_mapping (anchors : List (String × ℤ × ℤ))
    (bcs : List (ℕ × List (String × BubbleCoord)))
    (prev : List (ℕ × List (String × ℤ × ℤ)))
    (q : ℕ) (qd : List (String × BubbleCoord)) (o : String) (od : BubbleCoord)
    (rel : RelAnchor) (hanch : anchors ≠ [])
    (hbnd : (bcs.map Prod.fst).Nodup) (hqnd : (qd.map Prod.fst).Nodup)
    (hqm : (q, qd) ∈ bcs) (hom : (o, od) ∈ qd)
    (hrel : od.relative_to_anchor = some rel) :
    (∃ outq,
       (transformCoordinatesUpdate anchors (some bcs) prev).lookup q = some outq ∧
       (∀ ax ay, anchors.lookup rel.anchor = some (ax, ay) →
          outq.lookup o = some (ax + rel.x, ay + rel.y)) ∧
       (anchors.lookup rel.anchor = none → outq.lookup o = none)) ∧
    (o ∈ optionLetters →
       ∃ outq, (transformCoordinatesLegacy anchors bcs).lookup q = some outq ∧
         (∀ ax ay, anchors.lookup rel.anchor = some (ax, ay) →
            outq.lookup o = some (ax + rel.x, ay + rel.y)) ∧
         (anchors.lookup rel.anchor = none → outq.lookup o = none)) ∧
    (o ∉ optionLetters →
       ∃ outq, (transformCoordinatesLegacy anchors bcs).lookup q = some outq ∧
         outq.lookup o = none) := by
  have hupd : transformCoordinatesUpdate anchors (some bcs) prev =
      transformCoordinates anchors bcs := by
    rw [transformCoordinatesUpdate]
    exact if_neg hanch
  have hmodular : (transformCoordinates anchors bcs).lookup q =
      some (qd.filterMap fun od' => (mapBubble anchors od'.2).map fun p => (od'.1, p)) := by
    rw [transformCoordinates]
    exact lookup_map_val bcs
      (fun p => p.2.filterMap fun od' => (mapBubble anchors od'.2).map fun p' => (od'.1, p'))
      hbnd q qd hqm
  have hlegacy : (transformCoordinatesLegacy anchors bcs).lookup q =
      some (optionLetters.filterMap fun o' =>
        ((qd.lookup o').bind (mapBubble anchors)).map fun p => (o', p)) := by
    rw [transformCoordinatesLegacy]
    exact lookup_map_val bcs
      (fun p => optionLetters.filterMap fun o' =>
        ((p.2.lookup o').bind (mapBubble anchors)).map fun p' => (o', p'))
      hbnd q qd hqm
  have hmb : ∀ ax ay, anchors.lookup rel.anchor = some (ax, ay) →
      mapBubble anchors od = some (ax + rel.x, ay + rel.y) := by
    intro ax ay hax
    simp [mapBubble, hrel, hax]
  have hmbn : anchors.lookup rel.anchor = none → mapBubble anchors od = none := by
    intro hax
    simp [mapBubble, hrel, hax]
  refine ⟨?_, ?_, ?_⟩
  · refine ⟨_, by rw [hupd, hmodular], ?_, ?_⟩
    · intro ax ay hax
      rw [lookup_filterMap_keyed (mapBubble anchors) qd hqnd o od hom]
      exact hmb ax ay hax
    · intro hax
      rw [lookup_filterMap_keyed (mapBubble anchors) qd hqnd o od hom]
      exact hmbn hax
  · intro ho
    have hqdo : qd.lookup o = some od := lookup_eq_of_mem qd hqnd o od hom
    refine ⟨_, by rw [hlegacy], ?_, ?_⟩
    · intro ax ay hax
      rw [lookup_filterMap_letters (fun o' => (qd.lookup o').bind (mapBubble anchors))
        optionLetters (by decide) o ho, hqdo, Option.some_bind]
      exact hmb ax ay hax
    · intro hax
      rw [lookup_filterMap_letters (fun o' => (qd.lookup o').bind (mapBubble anchors))
        optionLetters (by decide) o ho, hqdo, Option.some_bind]
      exact hmbn hax
  · intro ho
    refine ⟨_, by rw [hlegacy], ?_⟩
    exact lookup_letters_none (fun o' => (qd.lookup o').bind (mapBubble anchors))
      optionLetters o ho

/-- Counterexample for C4 as stated: the legacy mapper drops a descriptor
with option key `E` although its referenced anchor `top_left` is present in
the detected anchors, instead of outputting `(10 + 3, 20 + 4)`. -/
theorem coordinate_mapping_cex :
    transformCoordinatesLegacy [("top_left", ((10:ℤ), (20:ℤ)))]
        [(1, [("E", BubbleCoord.mk 13 24 5 (some (RelAnchor.mk "top_left" 3 4)))])] =
      [(1, [])] ∧
    List.lookup "top_left" [("top_left", ((10:ℤ), (20:ℤ)))] = some (10, 20) := by
  constructor
  · rfl
  · rfl

/-- Witness for C4: one question with option `A` relative to a present
anchor maps to anchor + offset. -/
theorem coordinate_mapping_witness :
    (([("top_left", ((10:ℤ), (20:ℤ)))] : List (String × ℤ × ℤ)) ≠ []) ∧
    (∃ outq,
       (transformCoordinatesUpdate [("top_left", ((10:ℤ), (20:ℤ)))]
          (some [(1, [("A", BubbleCoord.mk 130 400 20 (some (RelAnchor.mk "top_left" 120 380)))])])
          []).lookup 1 = some outq ∧
       (∀ ax ay,
          List.lookup "top_left" [("top_left", ((10:ℤ), (20:ℤ)))] = some (ax, ay) →
          outq.lookup "A" = some (ax + 120, ay + 380)) ∧
       (List.lookup "top_left" [("top_left", ((10:ℤ), (20:ℤ)))] = none →
          outq.lookup "A" = none)) :=
  ⟨by decide,
   (coordinate_mapping [("top_left", ((10:ℤ), (20:ℤ)))]
      [(1, [("A", BubbleCoord.mk 130 400 20 (some (RelAnchor.mk "top_left" 120 380)))])]
      [] 1 [("A", BubbleCoord.mk 130 400 20 (some (RelAnchor.mk "top_left" 120 380)))]
      "A" (BubbleCoord.mk 130 400 20 (some (RelAnchor.mk "top_left" 120 380)))
      (RelAnchor.mk "top_left" 120 380)
      (by decide) (by decide) (by decide) (by decide) (by decide) rfl).1⟩

/-- C6 (amended): round-trip by language. For a layout exported in any
non-Greek language, mapping the exported `bubble_coordinates` back with the
legacy coordinate mapper against anchors placed exactly at the alignment
points reproduces, for every question and option, the original absolute
design-time coordinates, exactly. For a layout exported in Greek (`'el'`),
whose option keys are the Greek capitals, the legacy mapper's fixed
`['A', 'B', 'C', 'D']` iteration drops every bubble: each question comes
back empty. The modular mapper, which iterates all option keys, round-trips
exactly in every language. -/
theorem layout_round_trip_by_language (lang : String) (n : ℕ) :
    (lang ≠ "el" →
       transformCoordinatesLegacy perfectAnchors (calcBubbleCoordinates lang n) =
         (calcBubbleCoordinates lang n).map fun qd =>
           (qd.1, qd.2.map fun od => (od.1, (od.2.x, od.2.y)))) ∧
    (transformCoordinatesLegacy perfectAnchors (calcBubbleCoordinates "el" n) =
       (calcBubbleCoordinates "el" n).map fun qd => (qd.1, ([] : List (String × ℤ × ℤ)))) ∧
    (transformCoordinates perfectAnchors (calcBubbleCoordinates lang n) =
       (calcBubbleCoordinates lang n).map fun qd =>
         (qd.1, qd.2.map fun od => (od.1, (od.2.x, od.2.y)))) := by
  refine ⟨?_, ?_, ?_⟩
  · intro hlang
    have hlet : getOptionLetter lang = latinOptionLetter :=
      funext fun j => if_neg hlang
    rw [transformCoordinatesLegacy, calcBubbleCoordinates, hlet,
      List.map_map, List.map_map]
    apply List.map_congr_left
    intro i _
    rfl
  · rw [transformCoordinatesLegacy, calcBubbleCoordinates,
      List.map_map, List.map_map]
    apply List.map_congr_left
    intro i _
    rfl
  · rw [transformCoordinates, calcBubbleCoordinates, List.map_map, List.map_map]
    apply List.map_congr_left
    intro i _
    rfl

/-- Counterexample for C6 as stated: a one-question layout exported in
Greek mode maps back through the legacy coordinate mapper to an empty
question — the round trip does not reproduce the design-time coordinates. -/
theorem layout_round_trip_cex :
    transformCoordinatesLegacy perfectAnchors (calcBubbleCoordinates "el" 1) =
      [(1, [])] ∧
    transformCoordinatesLegacy perfectAnchors (calcBubbleCoordinates "el" 1) ≠
      (calcBubbleCoordinates "el" 1).map fun qd =>
        (qd.1, qd.2.map fun od => (od.1, (od.2.x, od.2.y))) := by
  refine ⟨rfl, ?_⟩
  intro h
  have h0 : (transformCoordinatesLegacy perfectAnchors
      (calcBubbleCoordinates "el" 1)).map (fun qd => qd.2.length) = [0] := rfl
  rw [h] at h0
  have h4 : ((calcBubbleCoordinates "el" 1).map fun qd =>
      (qd.1, qd.2.map fun od => (od.1, (od.2.x, od.2.y)))).map
        (fun qd => qd.2.length) = [4] := rfl
  rw [h4] at h0
  exact absurd h0 (by decide)

/-- Witness for C6: the English-language export of a one-question layout
round-trips through the legacy mapper. -/
theorem layout_round_trip_witness :
    ("en" : String) ≠ "el" ∧
    transformCoordinatesLegacy perfectAnchors (calcBubbleCoordinates "en" 1) =
      (calcBubbleCoordinates "en" 1).map fun qd =>
        (qd.1, qd.2.map fun od => (od.1, (od.2.x, od.2.y))) :=
  ⟨by decide, (layout_round_trip_by_language "en" 1).1 (by decide)⟩

end ThesisOMR
